import Mathlib

/-!
Shallow embedding of `src/ThreadPool.cpp` (namespace MB) and proofs about it.

The C++ class `MB::ThreadPool` holds
  `size_t maxThreads; std::vector<std::thread> workers;
   std::queue<std::function<void()>> tasks; std::mutex queueMutex;
   std::condition_variable condition; std::atomic<bool> stop = false;`.

All queue and worker-set mutation happens under the single `queueMutex`, so
the concurrent behaviour is an interleaving of atomic blocks; we model it as
a small-step relation on a state record.  Tasks are identified by `Nat` ids;
two ghost fields record the order of enqueues and of queue removals (pops),
which the C++ object does not store but which the lock-serialised history
determines uniquely.
-/

namespace MB

/-- Status of one entry of the `workers` vector: the thread is parked or
between loop iterations (`idle`), has popped task `t` and is executing it
outside the lock (`busy t`), or has returned from `workerLoop` (`exited`).
Exited threads stay in the vector (the C++ `workers` vector never shrinks). -/
inductive WStatus where
  | idle : WStatus
  | busy : Nat → WStatus
  | exited : WStatus
deriving DecidableEq

/-- The lock-protected state of a `ThreadPool`, plus ghost history logs.
`tasks` is the FIFO queue, head = front (next to be popped).
`enqLog` lists every task ever passed to `enqueue`, in call order;
`execLog` lists every task ever popped by a worker, in pop order. -/
structure PoolState where
  maxThreads : Nat
  workers : List WStatus
  tasks : List Nat
  stop : Bool
  enqLog : List Nat
  execLog : List Nat
deriving DecidableEq

namespace ThreadPool

/-- `ThreadPool::addThread`: under the lock,
`if (workers.size() < maxThreads) workers.emplace_back(workerLoop)`.
Note the code checks only the size against the cap; it does not consult
the `stop` flag.  The new thread starts in the worker loop, i.e. `idle`. -/
def addThread (s : PoolState) : PoolState :=
  if s.workers.length < s.maxThreads then
    { s with workers := s.workers ++ [WStatus.idle] }
  else s

/-- `ThreadPool::enqueue`: under the lock, `tasks.push(task)` (append at the
tail), then `condition.notify_one()`.  There is no check of `stop` and no
failure path. -/
def enqueue (s : PoolState) (t : Nat) : PoolState :=
  { s with tasks := s.tasks ++ [t], enqLog := s.enqLog ++ [t] }

/-- `ThreadPool::getThreadCount`: `workers.size()` under the lock. -/
def getThreadCount (s : PoolState) : Nat := s.workers.length

/-- `ThreadPool::getPendingTaskCount`: `tasks.size()` under the lock. -/
def getPendingTaskCount (s : PoolState) : Nat := s.tasks.length

/-- The member-initialised state before the constructor body runs:
empty vector, empty queue, `stop = false`. -/
def initState (maxThreads : Nat) : PoolState :=
  { maxThreads := maxThreads, workers := [], tasks := [], stop := false,
    enqLog := [], execLog := [] }

/-- `ThreadPool::ThreadPool(initialThreads, maxThreads)`: stores
`maxThreads`, then calls `addThread()` exactly `initialThreads` times.
There is no validation of the arguments anywhere in the constructor. -/
def construct (initialThreads maxThreads : Nat) : PoolState :=
  addThread^[initialThreads] (initState maxThreads)

end ThreadPool

/-- One atomic action of `ThreadPool::workerLoop` by the worker at vector
index `i`.  The loop body: wait until `stop || !tasks.empty()`; then
`if (stop && tasks.empty()) return;` else pop the front task and execute it
outside the lock.
* `pop`: the queue is non-empty, so the wait predicate holds and the
  stop-and-empty exit test fails; the worker removes the front task under
  the lock and goes off to execute it.
* `finish`: the worker finishes executing its claimed task and loops back.
  (Task bodies are modelled as completing normally here; what the loop does
  with a task that raises is the separate model `workerLoopRun` below.)
* `exitStep`: `stop` is true and the queue is empty — the only `return`
  in `workerLoop`. -/
inductive WorkerStep : PoolState → PoolState → Prop where
  | pop (s : PoolState) (i t : Nat) (rest : List Nat)
      (hw : s.workers[i]? = some WStatus.idle)
      (hq : s.tasks = t :: rest) :
      WorkerStep s { s with workers := s.workers.set i (WStatus.busy t),
                            tasks := rest, execLog := s.execLog ++ [t] }
  | finish (s : PoolState) (i t : Nat)
      (hw : s.workers[i]? = some (WStatus.busy t)) :
      WorkerStep s { s with workers := s.workers.set i WStatus.idle }
  | exitStep (s : PoolState) (i : Nat)
      (hw : s.workers[i]? = some WStatus.idle)
      (hstop : s.stop = true) (hq : s.tasks = []) :
      WorkerStep s { s with workers := s.workers.set i WStatus.exited }

/-- One atomic action on the shared pool state: a producer enqueues, the
growth hook `addThread` runs, the destructor's first line `stop = true`
runs, or some worker takes a `WorkerStep`. -/
inductive Step : PoolState → PoolState → Prop where
  | enq (s : PoolState) (t : Nat) : Step s (ThreadPool.enqueue s t)
  | add (s : PoolState) : Step s (ThreadPool.addThread s)
  | setStop (s : PoolState) : Step s { s with stop := true }
  | worker (s s' : PoolState) : WorkerStep s s' → Step s s'

/-- States reachable from some constructor call by interleaved steps. -/
inductive Reachable : PoolState → Prop where
  | init (i m : Nat) : Reachable (ThreadPool.construct i m)
  | step {s s' : PoolState} : Reachable s → Step s s' → Reachable s'

/-- Whether any entry of the workers vector is a thread that has not yet
returned from its loop (a thread the destructor's join must wait for). -/
def liveWorker (s : PoolState) : Bool :=
  s.workers.any (fun w => decide (w ≠ WStatus.exited))

namespace ThreadPool

/-- `ThreadPool::~ThreadPool`: `stop = true; condition.notify_all();`
then join every worker.  `join` blocks until the worker's loop returns,
and the loop returns only when `stop && tasks.empty()`, after popping and
fully executing tasks one at a time; so if at least one not-yet-exited
worker exists, by the time every join completes the whole queue has been
popped (in FIFO order, appended to `execLog`) and executed, and every
worker has exited.  If no live worker exists the joins are all no-ops and
the queued tasks are destroyed with the object, never executed. -/
def destruct (s : PoolState) : PoolState :=
  if liveWorker s then
    { s with stop := true, tasks := [], execLog := s.execLog ++ s.tasks,
             workers := s.workers.map (fun _ => WStatus.exited) }
  else
    { s with stop := true,
             workers := s.workers.map (fun _ => WStatus.exited) }

end ThreadPool

/-- `enqueue` called once per element of `ts`, in order. -/
def enqueueAll (s : PoolState) (ts : List Nat) : PoolState :=
  ts.foldl ThreadPool.enqueue s

/-- Sequential run of the body of `workerLoop` by one worker draining a
queue (the post-`stop` phase, where the wait never blocks).  Task bodies
are `eff : Nat → Except String Unit`.  The call `task();` in
`workerLoop` has no surrounding try/catch, so an error raised by a task
propagates out of the loop: the run stops at the first faulting task and
returns the error (in C++ the uncaught exception escaping the thread entry
point calls `std::terminate`).  Returns the tasks that completed normally,
and the faulting task with its error if one occurred. -/
def workerLoopRun (eff : Nat → Except String Unit) :
    List Nat → List Nat × Option (Nat × String)
  | [] => ([], none)
  | t :: rest =>
    match eff t with
    | Except.ok _ =>
        let r := workerLoopRun eff rest
        (t :: r.1, r.2)
    | Except.error e => ([], some (t, e))

/-- A task environment where task `0` raises and every other task
completes normally. -/
def faultyEff : Nat → Except String Unit :=
  fun t => if t = 0 then Except.error "boom" else Except.ok ()

/-! ### Helper lemmas -/

theorem addThread_fields (s : PoolState) :
    (ThreadPool.addThread s).maxThreads = s.maxThreads
    ∧ (ThreadPool.addThread s).tasks = s.tasks
    ∧ (ThreadPool.addThread s).stop = s.stop
    ∧ (ThreadPool.addThread s).enqLog = s.enqLog
    ∧ (ThreadPool.addThread s).execLog = s.execLog := by
  unfold ThreadPool.addThread
  split <;> simp

theorem construct_fields (i m : Nat) :
    (ThreadPool.construct i m).maxThreads = m
    ∧ (ThreadPool.construct i m).tasks = []
    ∧ (ThreadPool.construct i m).stop = false
    ∧ (ThreadPool.construct i m).enqLog = []
    ∧ (ThreadPool.construct i m).execLog = [] := by
  unfold ThreadPool.construct
  induction i with
  | zero => simp [ThreadPool.initState]
  | succ n ih =>
    rw [Function.iterate_succ_apply']
    have h := addThread_fields (ThreadPool.addThread^[n] (ThreadPool.initState m))
    exact ⟨h.1.trans ih.1, h.2.1.trans ih.2.1, h.2.2.1.trans ih.2.2.1,
           h.2.2.2.1.trans ih.2.2.2.1, h.2.2.2.2.trans ih.2.2.2.2⟩

theorem construct_workers (i m : Nat) :
    (ThreadPool.construct i m).workers = List.replicate (min i m) WStatus.idle := by
  induction i with
  | zero => simp [ThreadPool.construct, ThreadPool.initState]
  | succ n ih =>
    have hmax := (construct_fields n m).1
    have hstep : ThreadPool.construct (n + 1) m
        = ThreadPool.addThread (ThreadPool.construct n m) := by
      rw [ThreadPool.construct, ThreadPool.construct, Function.iterate_succ_apply']
    rw [hstep]
    simp only [ThreadPool.addThread]
    rw [ih, hmax]
    simp only [List.length_replicate]
    split
    · rename_i hlt
      show List.replicate (min n m) WStatus.idle ++ [WStatus.idle]
          = List.replicate (min (n + 1) m) WStatus.idle
      rw [← List.replicate_succ']
      congr 1
      omega
    · rename_i hge
      rw [ih]
      congr 1
      omega

theorem getThreadCount_construct (i m : Nat) :
    ThreadPool.getThreadCount (ThreadPool.construct i m) = min i m := by
  rw [ThreadPool.getThreadCount, construct_workers, List.length_replicate]

theorem enqueueAll_fields (ts : List Nat) (s : PoolState) :
    (enqueueAll s ts).tasks = s.tasks ++ ts
    ∧ (enqueueAll s ts).enqLog = s.enqLog ++ ts
    ∧ (enqueueAll s ts).workers = s.workers
    ∧ (enqueueAll s ts).maxThreads = s.maxThreads
    ∧ (enqueueAll s ts).stop = s.stop
    ∧ (enqueueAll s ts).execLog = s.execLog := by
  induction ts generalizing s with
  | nil => simp [enqueueAll]
  | cons t ts ih =>
    have h := ih (ThreadPool.enqueue s t)
    simp only [enqueueAll] at h ⊢
    rw [List.foldl_cons]
    refine ⟨?_, ?_, ?_, ?_, ?_, ?_⟩
    · rw [h.1]; simp [ThreadPool.enqueue]
    · rw [h.2.1]; simp [ThreadPool.enqueue]
    · rw [h.2.2.1]; simp [ThreadPool.enqueue]
    · rw [h.2.2.2.1]; simp [ThreadPool.enqueue]
    · rw [h.2.2.2.2.1]; simp [ThreadPool.enqueue]
    · rw [h.2.2.2.2.2]; simp [ThreadPool.enqueue]

/-- A `List.set` with a non-exited value creates no new `exited` entry. -/
theorem set_exited_back {l : List WStatus} {i j : Nat} {v : WStatus}
    (hv : v ≠ WStatus.exited) (h : (l.set i v)[j]? = some WStatus.exited) :
    l[j]? = some WStatus.exited := by
  rw [List.getElem?_set] at h
  by_cases hij : i = j
  · rw [if_pos hij] at h
    by_cases hil : i < l.length
    · rw [if_pos hil] at h
      exact absurd (Option.some.inj h) hv
    · rw [if_neg hil] at h
      exact absurd h (by simp)
  · rwa [if_neg hij] at h

/-- One interleaved step preserves the history relation between the
enqueue log, the pop log and the queue. -/
theorem step_log {s s' : PoolState} (hs : Step s s')
    (ih : s.enqLog = s.execLog ++ s.tasks) :
    s'.enqLog = s'.execLog ++ s'.tasks := by
  cases hs with
  | enq t => simp [ThreadPool.enqueue, ih]
  | add =>
    have h := addThread_fields s
    rw [h.2.2.2.1, h.2.2.2.2, h.2.1]
    exact ih
  | setStop => simpa using ih
  | worker =>
    rename_i hw
    cases hw with
    | pop i t rest hwk hq =>
      rw [hq] at ih
      simpa using ih
    | finish i t hwk => simpa using ih
    | exitStep i hwk hstop hq => simpa using ih

/-- History invariant of every reachable state: the enqueue log is exactly
the pop log followed by the current queue. -/
theorem reachable_log {s : PoolState} (h : Reachable s) :
    s.enqLog = s.execLog ++ s.tasks := by
  induction h with
  | init i m =>
    have h := construct_fields i m
    rw [h.2.1, h.2.2.2.1, h.2.2.2.2]
    simp
  | step _ hs ih => exact step_log hs ih

/-- No worker step is possible once every entry of the vector is exited. -/
theorem no_worker_step_of_exited {s s' : PoolState}
    (h : ∀ w ∈ s.workers, w = WStatus.exited) (hs : WorkerStep s s') : False := by
  cases hs with
  | pop i t rest hw hq => exact absurd (h _ (List.getElem?_mem hw)) (by simp)
  | finish i t hw => exact absurd (h _ (List.getElem?_mem hw)) (by simp)
  | exitStep i hw hstop hq => exact absurd (h _ (List.getElem?_mem hw)) (by simp)

theorem liveWorker_of_replicate {s : PoolState} {n : Nat}
    (hw : s.workers = List.replicate n WStatus.idle) (hn : 0 < n) :
    liveWorker s = true := by
  rw [liveWorker, hw, List.any_eq_true]
  exact ⟨WStatus.idle, List.mem_replicate.2 ⟨by omega, rfl⟩, by decide⟩

theorem step_maxThreads {s s' : PoolState} (h : Step s s') :
    s'.maxThreads = s.maxThreads := by
  cases h with
  | enq t => rfl
  | add => exact (addThread_fields s).1
  | setStop => rfl
  | worker =>
    rename_i hw
    cases hw <;> rfl

theorem step_threadCount_mono {s s' : PoolState} (h : Step s s') :
    s.workers.length ≤ s'.workers.length := by
  cases h with
  | enq t => exact le_refl _
  | add =>
    unfold ThreadPool.addThread
    split <;> simp
  | setStop => exact le_refl _
  | worker =>
    rename_i hw
    cases hw <;> simp

theorem reachable_threadCount_le {s : PoolState} (h : Reachable s) :
    s.workers.length ≤ s.maxThreads := by
  induction h with
  | init i m =>
    rw [(construct_fields i m).1, construct_workers, List.length_replicate]
    omega
  | step _ hs ih =>
    rw [step_maxThreads hs]
    cases hs with
    | enq t => exact ih
    | add =>
      unfold ThreadPool.addThread
      split
      · rename_i hlt
        simp only [List.length_append, List.length_cons, List.length_nil]
        omega
      · exact ih
    | setStop => exact ih
    | worker =>
      rename_i hw
      cases hw <;> simpa using ih

/-! ### Claims -/

/-- C1, counterexample: the spec requires construction with
`maxThreads == 0` or `initialThreads > maxThreads` to be rejected, but
`ThreadPool::ThreadPool` contains no validation at all: `construct 3 0`
returns an ordinary pool object (the freshly initialised state, zero
workers), and `construct 5 2` returns a pool with 2 workers. -/
theorem C1_construct_counterexample :
    ThreadPool.construct 3 0 = ThreadPool.initState 0
    ∧ ThreadPool.getThreadCount (ThreadPool.construct 3 0) = 0
    ∧ ThreadPool.getThreadCount (ThreadPool.construct 5 2) = 2 := by
  decide

/-- C1 amended: construction is never rejected; with `maxThreads = 0` the
resulting pool object has zero workers (permanently unable to process
work), and with `initialThreads > maxThreads` it has exactly `maxThreads`
workers, the excess spawn requests being silently dropped by the cap
check inside `addThread`. -/
theorem C1_construct_amended (i m : Nat) (h : m < i) :
    ThreadPool.getThreadCount (ThreadPool.construct i 0) = 0
    ∧ ThreadPool.getThreadCount (ThreadPool.construct i m) = m := by
  refine ⟨?_, ?_⟩ <;> rw [getThreadCount_construct] <;> omega

theorem C1_construct_amended_witness :
    ThreadPool.getThreadCount (ThreadPool.construct 5 0) = 0
    ∧ ThreadPool.getThreadCount (ThreadPool.construct 5 2) = 2 :=
  C1_construct_amended 5 2 (by decide)

/-- C9: construction always succeeds without validation and spawns exactly
`min initialThreads maxThreads` workers, so `getThreadCount` right after
construction is that minimum; in particular `construct k 0` yields a pool
with zero workers for any `k`. -/
theorem C9_construct_min (i m k : Nat) :
    ThreadPool.getThreadCount (ThreadPool.construct i m) = min i m
    ∧ ThreadPool.getThreadCount (ThreadPool.construct k 0) = 0 := by
  refine ⟨getThreadCount_construct i m, ?_⟩
  rw [getThreadCount_construct]
  omega

/-- C4: `addThread` grows the worker set by exactly one iff the current
count is strictly below `maxThreads`, and otherwise is a no-op; under any
interleaved step the worker count never decreases, in any reachable state
it never exceeds `maxThreads`, and after `construct 4 4` five further
`addThread` calls leave `getThreadCount` at 4. -/
theorem C4_addThread_cap (s s' : PoolState) :
    (ThreadPool.getThreadCount (ThreadPool.addThread s)
        = ThreadPool.getThreadCount s + 1
      ↔ ThreadPool.getThreadCount s < s.maxThreads)
    ∧ (s.maxThreads ≤ ThreadPool.getThreadCount s → ThreadPool.addThread s = s)
    ∧ (Step s s' → ThreadPool.getThreadCount s ≤ ThreadPool.getThreadCount s')
    ∧ (Reachable s → ThreadPool.getThreadCount s ≤ s.maxThreads)
    ∧ ThreadPool.getThreadCount
        (ThreadPool.addThread^[5] (ThreadPool.construct 4 4)) = 4 := by
  refine ⟨?_, ?_, ?_, ?_, ?_⟩
  · unfold ThreadPool.getThreadCount ThreadPool.addThread
    split
    · rename_i hlt
      simp [hlt]
    · rename_i hge
      exact iff_of_false (by omega) hge
  · intro h
    unfold ThreadPool.getThreadCount at h
    unfold ThreadPool.addThread
    rw [if_neg (by omega)]
  · exact fun hs => step_threadCount_mono hs
  · exact fun hr => reachable_threadCount_le hr
  · decide

theorem C4_addThread_cap_witness :
    ThreadPool.addThread (ThreadPool.construct 4 4) = ThreadPool.construct 4 4
    ∧ ThreadPool.getThreadCount (ThreadPool.construct 4 4)
        ≤ (ThreadPool.construct 4 4).maxThreads
    ∧ ThreadPool.getThreadCount (ThreadPool.construct 4 4)
        ≤ ThreadPool.getThreadCount (ThreadPool.addThread (ThreadPool.construct 4 4)) :=
  ⟨(C4_addThread_cap (ThreadPool.construct 4 4) (ThreadPool.construct 4 4)).2.1
      (by decide),
   (C4_addThread_cap (ThreadPool.construct 4 4) (ThreadPool.construct 4 4)).2.2.2.1
      (Reachable.init 4 4),
   (C4_addThread_cap (ThreadPool.construct 4 4)
      (ThreadPool.addThread (ThreadPool.construct 4 4))).2.2.1
      (Step.add (ThreadPool.construct 4 4))⟩

/-- C6: `enqueue` appends at the tail of the queue and increases
`getPendingTaskCount` by exactly one; after enqueuing the list `ts` on a
pool constructed with zero workers the pending count is `ts.length`; and
once the workers have drained everything (the destructor of a pool with a
live worker joins only after the queue is empty) the pending count is 0. -/
theorem C6_enqueue_count (s : PoolState) (t : Nat) (ts : List Nat) (m : Nat) :
    (ThreadPool.enqueue s t).tasks = s.tasks ++ [t]
    ∧ ThreadPool.getPendingTaskCount (ThreadPool.enqueue s t)
        = ThreadPool.getPendingTaskCount s + 1
    ∧ ThreadPool.getThreadCount (ThreadPool.construct 0 m) = 0
    ∧ ThreadPool.getPendingTaskCount (enqueueAll (ThreadPool.construct 0 m) ts)
        = ts.length
    ∧ (liveWorker s = true →
        ThreadPool.getPendingTaskCount (ThreadPool.destruct s) = 0) := by
  refine ⟨rfl, by simp [ThreadPool.enqueue, ThreadPool.getPendingTaskCount], ?_, ?_, ?_⟩
  · rw [getThreadCount_construct]
    omega
  · rw [ThreadPool.getPendingTaskCount, (enqueueAll_fields ts _).1,
        (construct_fields 0 m).2.1]
    simp
  · intro h
    simp [ThreadPool.getPendingTaskCount, ThreadPool.destruct, h]

theorem C6_enqueue_count_witness :
    ThreadPool.getPendingTaskCount
      (ThreadPool.destruct ⟨1, [WStatus.idle], [9], false, [9], []⟩) = 0 :=
  (C6_enqueue_count ⟨1, [WStatus.idle], [9], false, [9], []⟩ 0 [] 0).2.2.2.2
    (by decide)

/-- C7: FIFO removal. In every reachable state the enqueue log equals the
pop log followed by the current queue, so tasks are popped from the queue
in exactly the order they were enqueued; in particular whenever a
later-enqueued task has been popped, every earlier-enqueued task was
already popped, at the same position in the pop log as in the enqueue
log. -/
theorem C7_fifo (s : PoolState) (h : Reachable s) :
    s.enqLog = s.execLog ++ s.tasks
    ∧ ∀ a b i j, i < j → s.enqLog[i]? = some a → s.enqLog[j]? = some b →
        j < s.execLog.length → s.execLog[i]? = some a ∧ s.execLog[j]? = some b := by
  have hlog := reachable_log h
  refine ⟨hlog, ?_⟩
  intro a b i j hij ha hb hj
  rw [hlog, List.getElem?_append_left (lt_trans hij hj)] at ha
  rw [hlog, List.getElem?_append_left hj] at hb
  exact ⟨ha, hb⟩

theorem C7_fifo_witness :
    (ThreadPool.construct 2 4).enqLog
      = (ThreadPool.construct 2 4).execLog ++ (ThreadPool.construct 2 4).tasks :=
  (C7_fifo (ThreadPool.construct 2 4) (Reachable.init 2 4)).1

/-- C10: a task is removed from the queue before it is executed: the pop
step moves the front task from `tasks` into the worker's `busy` slot, so
`getPendingTaskCount` drops by one at claim time and counts only
unclaimed tasks; when the popped task was the last queued one, the
pending count is 0 while the claiming worker is still busy executing. -/
theorem C10_pending_claimed (s : PoolState) (i t : Nat) (rest : List Nat)
    (hw : s.workers[i]? = some WStatus.idle) (hq : s.tasks = t :: rest) :
    WorkerStep s { s with workers := s.workers.set i (WStatus.busy t),
                          tasks := rest, execLog := s.execLog ++ [t] }
    ∧ ThreadPool.getPendingTaskCount s
        = ThreadPool.getPendingTaskCount
            { s with workers := s.workers.set i (WStatus.busy t),
                     tasks := rest, execLog := s.execLog ++ [t] } + 1
    ∧ (s.workers.set i (WStatus.busy t))[i]? = some (WStatus.busy t)
    ∧ (rest = [] →
        ThreadPool.getPendingTaskCount
          { s with workers := s.workers.set i (WStatus.busy t),
                   tasks := rest, execLog := s.execLog ++ [t] } = 0) := by
  refine ⟨WorkerStep.pop s i t rest hw hq, ?_, ?_, ?_⟩
  · simp [ThreadPool.getPendingTaskCount, hq]
  · have hi : i < s.workers.length := (List.getElem?_eq_some.mp hw).1
    rw [List.getElem?_set, if_pos rfl, if_pos hi]
  · intro hrest
    simp [ThreadPool.getPendingTaskCount, hrest]

theorem C10_pending_claimed_witness :
    ThreadPool.getPendingTaskCount
      { (⟨1, [WStatus.idle], [5], false, [5], []⟩ : PoolState) with
        workers := [WStatus.idle].set 0 (WStatus.busy 5),
        tasks := ([] : List Nat), execLog := ([] : List Nat) ++ [5] } = 0 :=
  (C10_pending_claimed ⟨1, [WStatus.idle], [5], false, [5], []⟩ 0 5 []
    (by decide) rfl).2.2.2 rfl

/-- C2, counterexample: with the stop flag already true, `addThread`
still spawns a worker whenever the count is below the cap (the code
checks only `workers.size() < maxThreads`, never `stop`), and a task
enqueued after stop is still popped by a live worker (the loop keeps
draining while the queue is non-empty, whatever `stop` is).  Both parts
are shown at concrete states reachable from a constructor call. -/
theorem C2_stop_counterexample :
    Reachable ⟨1, [], [], true, [], []⟩
    ∧ (⟨1, [], [], true, [], []⟩ : PoolState).stop = true
    ∧ ThreadPool.getThreadCount (ThreadPool.addThread ⟨1, [], [], true, [], []⟩) = 1
    ∧ Reachable ⟨1, [WStatus.idle], [42], true, [42], []⟩
    ∧ (⟨1, [WStatus.idle], [42], true, [42], []⟩ : PoolState).stop = true
    ∧ WorkerStep ⟨1, [WStatus.idle], [42], true, [42], []⟩
        ⟨1, [WStatus.busy 42], [], true, [42], [42]⟩
    ∧ (⟨1, [WStatus.busy 42], [], true, [42], [42]⟩ : PoolState).execLog = [42] := by
  refine ⟨?_, rfl, by decide, ?_, rfl, ?_, rfl⟩
  · have h1 : ({ ThreadPool.construct 0 1 with stop := true } : PoolState)
        = ⟨1, [], [], true, [], []⟩ := by decide
    exact h1 ▸ Reachable.step (Reachable.init 0 1) (Step.setStop _)
  · have h2 : ThreadPool.enqueue { ThreadPool.construct 1 1 with stop := true } 42
        = ⟨1, [WStatus.idle], [42], true, [42], []⟩ := by decide
    exact h2 ▸ Reachable.step
      (Reachable.step (Reachable.init 1 1) (Step.setStop _)) (Step.enq _ 42)
  · exact WorkerStep.pop ⟨1, [WStatus.idle], [42], true, [42], []⟩ 0 42 []
      (by decide) rfl

/-- C2 amended: when the stop flag is true, `enqueue` still appends the
task to the queue, but `addThread` still spawns a worker whenever the
worker count is below `maxThreads` (it never consults `stop`), and any
live idle worker still pops queued tasks while the queue is non-empty,
so tasks enqueued after stop can still be drained; only a pool with no
live worker leaves them undrained.  (Correction: the code neither blocks
spawning nor draining after stop.) -/
theorem C2_stop_amended (s : PoolState) (t : Nat) (_hstop : s.stop = true) :
    (ThreadPool.enqueue s t).tasks = s.tasks ++ [t]
    ∧ (ThreadPool.getThreadCount s < s.maxThreads →
        ThreadPool.getThreadCount (ThreadPool.addThread s)
          = ThreadPool.getThreadCount s + 1)
    ∧ (∀ i t' rest, s.workers[i]? = some WStatus.idle → s.tasks = t' :: rest →
        WorkerStep s { s with workers := s.workers.set i (WStatus.busy t'),
                              tasks := rest, execLog := s.execLog ++ [t'] }) := by
  refine ⟨rfl, ?_, ?_⟩
  · intro hlt
    unfold ThreadPool.getThreadCount ThreadPool.addThread at *
    rw [if_pos hlt]
    simp
  · intro i t' rest hw hq
    exact WorkerStep.pop s i t' rest hw hq

theorem C2_stop_amended_witness :
    ThreadPool.getThreadCount
      (ThreadPool.addThread ⟨2, [WStatus.idle], [42], true, [42], []⟩)
      = ThreadPool.getThreadCount
          (⟨2, [WStatus.idle], [42], true, [42], []⟩ : PoolState) + 1 :=
  (C2_stop_amended ⟨2, [WStatus.idle], [42], true, [42], []⟩ 7 rfl).2.1 (by decide)

/-- C3, counterexample: in the task environment `faultyEff` task 0
raises; running the worker loop on the queue `[0, 1]` stops at the
fault: nothing completes, the error propagates out of the loop, and the
subsequent queued task 1 is never served — the loop does not catch the
fault and continue, refuting the claim. -/
theorem C3_fault_counterexample :
    workerLoopRun faultyEff [0, 1] = ([], some (0, "boom"))
    ∧ 1 ∉ (workerLoopRun faultyEff [0, 1]).1 := by
  decide

/-- C3 amended: the call `task();` in `workerLoop` has no surrounding
handler, so for every task environment and queue whose head task raises,
the run ends at the fault with no subsequent task served: the error
escapes the worker loop (in C++ the uncaught exception terminates the
process via `std::terminate`) instead of being contained at the task
boundary. -/
theorem C3_fault_amended (eff : Nat → Except String Unit) (t : Nat)
    (rest : List Nat) (e : String) (h : eff t = Except.error e) :
    workerLoopRun eff (t :: rest) = ([], some (t, e)) := by
  simp [workerLoopRun, h]

theorem C3_fault_amended_witness :
    workerLoopRun faultyEff (0 :: [2, 3]) = ([], some (0, "boom")) :=
  C3_fault_amended faultyEff 0 [2, 3] "boom" rfl

/-- C5, counterexample: a pool constructed with zero workers
(`construct 0 1`) accepts task 7 before stop, yet destruction (which
sets stop, broadcasts, then joins the empty worker collection) completes
with nothing ever popped or executed: a task enqueued before stop is
abandoned, refuting "every task enqueued before stop is eventually
executed exactly once and never abandoned". -/
theorem C5_exit_counterexample :
    (ThreadPool.enqueue (ThreadPool.construct 0 1) 7).enqLog = [7]
    ∧ (ThreadPool.enqueue (ThreadPool.construct 0 1) 7).stop = false
    ∧ (ThreadPool.destruct (ThreadPool.enqueue (ThreadPool.construct 0 1) 7)).stop = true
    ∧ (ThreadPool.destruct (ThreadPool.enqueue (ThreadPool.construct 0 1) 7)).execLog = [] := by
  decide

/-- C5 amended: a worker's loop can terminate only when the stop flag is
true and the queue is empty (no worker step creates a newly exited
worker while the queue is non-empty, nor while `stop` is false), and
conversely an idle worker may exit exactly when both hold; and provided
at least one not-yet-exited worker exists, destruction pops and executes
every task enqueued before stop, exactly once and in order (`execLog`
becomes exactly `enqLog`).  With zero live workers the drain guarantee
fails (see the counterexample), which is the correction. -/
theorem C5_exit_amended (s s' : PoolState) :
    (WorkerStep s s' → s.tasks ≠ [] → ∀ j : Nat,
        s'.workers[j]? = some WStatus.exited → s.workers[j]? = some WStatus.exited)
    ∧ (WorkerStep s s' → s.stop = false → ∀ j : Nat,
        s'.workers[j]? = some WStatus.exited → s.workers[j]? = some WStatus.exited)
    ∧ (∀ i, s.workers[i]? = some WStatus.idle → s.stop = true → s.tasks = [] →
        WorkerStep s { s with workers := s.workers.set i WStatus.exited })
    ∧ (liveWorker s = true → s.enqLog = s.execLog ++ s.tasks →
        (ThreadPool.destruct s).execLog = s.enqLog) := by
  refine ⟨?_, ?_, ?_, ?_⟩
  · intro hs hne j hj
    cases hs with
    | pop i t rest hw hq => exact set_exited_back (by simp) hj
    | finish i t hw => exact set_exited_back (by simp) hj
    | exitStep i hw hstop hq => exact absurd hq hne
  · intro hs hstop j hj
    cases hs with
    | pop i t rest hw hq => exact set_exited_back (by simp) hj
    | finish i t hw => exact set_exited_back (by simp) hj
    | exitStep i hw hst hq => simp [hst] at hstop
  · intro i hw hstop hq
    exact WorkerStep.exitStep s i hw hstop hq
  · intro hl hlog
    rw [ThreadPool.destruct, if_pos hl]
    exact hlog.symm

theorem C5_exit_amended_witness :
    (ThreadPool.destruct ⟨1, [WStatus.idle], [5], false, [5], []⟩).execLog = [5] :=
  (C5_exit_amended ⟨1, [WStatus.idle], [5], false, [5], []⟩
    ⟨1, [WStatus.idle], [5], false, [5], []⟩).2.2.2 (by decide) (by decide)

/-- C8, counterexample: `construct 0 2` spawns no workers; after two
enqueues, destruction joins nothing and returns with no task ever popped
or executed (0, not 2, tasks execute), refuting the claim for pools
whose worker count is zero. -/
theorem C8_shutdown_counterexample :
    ThreadPool.getThreadCount (ThreadPool.construct 0 2) = 0
    ∧ (enqueueAll (ThreadPool.construct 0 2) [1, 2]).enqLog = [1, 2]
    ∧ (ThreadPool.destruct (enqueueAll (ThreadPool.construct 0 2) [1, 2])).execLog = []
    ∧ (ThreadPool.destruct (enqueueAll (ThreadPool.construct 0 2) [1, 2])).stop = true := by
  decide

/-- C8 amended: provided the pool retains at least one worker
(`0 < min initialThreads maxThreads`), any sequence of enqueues `ts`
followed by destruction executes exactly the tasks of `ts`, each exactly
once and in order; the destructor sets the stop flag, wakes every worker
and joins each to completion, so afterwards the queue is empty, every
worker handle has exited, and no further worker step (hence no task
execution) is possible.  With zero workers the claim fails (see the
counterexample). -/
theorem C8_shutdown_amended (i m : Nat) (ts : List Nat) (h : 0 < min i m) :
    (ThreadPool.destruct (enqueueAll (ThreadPool.construct i m) ts)).execLog = ts
    ∧ (ThreadPool.destruct (enqueueAll (ThreadPool.construct i m) ts)).stop = true
    ∧ (ThreadPool.destruct (enqueueAll (ThreadPool.construct i m) ts)).tasks = []
    ∧ (∀ w ∈ (ThreadPool.destruct (enqueueAll (ThreadPool.construct i m) ts)).workers,
        w = WStatus.exited)
    ∧ (∀ s', WorkerStep (ThreadPool.destruct (enqueueAll (ThreadPool.construct i m) ts)) s'
        → False) := by
  have hwk : (enqueueAll (ThreadPool.construct i m) ts).workers
      = List.replicate (min i m) WStatus.idle := by
    rw [(enqueueAll_fields ts _).2.2.1, construct_workers]
  have hl : liveWorker (enqueueAll (ThreadPool.construct i m) ts) = true :=
    liveWorker_of_replicate hwk h
  have hd : ThreadPool.destruct (enqueueAll (ThreadPool.construct i m) ts)
      = { enqueueAll (ThreadPool.construct i m) ts with
          stop := true, tasks := [],
          execLog := (enqueueAll (ThreadPool.construct i m) ts).execLog
            ++ (enqueueAll (ThreadPool.construct i m) ts).tasks,
          workers := (enqueueAll (ThreadPool.construct i m) ts).workers.map
            (fun _ => WStatus.exited) } := by
    rw [ThreadPool.destruct, if_pos hl]
  have hexited : ∀ w ∈ (ThreadPool.destruct
      (enqueueAll (ThreadPool.construct i m) ts)).workers, w = WStatus.exited := by
    rw [hd]
    intro w hwmem
    rw [List.mem_map] at hwmem
    obtain ⟨a, _, haw⟩ := hwmem
    exact haw.symm
  refine ⟨?_, ?_, ?_, hexited, fun s' hs => no_worker_step_of_exited hexited hs⟩
  · rw [hd]
    show (enqueueAll (ThreadPool.construct i m) ts).execLog
        ++ (enqueueAll (ThreadPool.construct i m) ts).tasks = ts
    rw [(enqueueAll_fields ts _).2.2.2.2.2, (enqueueAll_fields ts _).1,
        (construct_fields i m).2.2.2.2, (construct_fields i m).2.1]
    simp
  · rw [hd]
  · rw [hd]

theorem C8_shutdown_amended_witness :
    (ThreadPool.destruct (enqueueAll (ThreadPool.construct 1 1) [3, 4])).execLog
      = [3, 4] :=
  (C8_shutdown_amended 1 1 [3, 4] (by decide)).1

end MB
